import Mathlib

/-!
Verification of the loadcell calibration core (`parse_calibration_curve.py`).

The pipeline is embedded shallowly over exact rationals (`ℚ` models the
Python floats) and `Except` models exceptions.  Every stage of the Python
function `parse_calibration_curve` is modelled as a named Lean function and
the top-level `parse_calibration_curve` is their composition, mirroring the
source line by line:

* `interpolate_2x`  — cubic-spline 2x upsampling (scipy `CubicSpline` at
  half-integer abscissas, not-a-knot boundary conditions);
* `alignStage`      — the `min(candA, candB, key=line_fit_residual)` phase
  selection over the two half-sample shift candidates;
* `selectWindow`    — `np.where(cut_ref > frac*delta + min)[0][[0, -1]]`;
* `windowFit`       — the final degree-1 `Polynomial.fit` over
  `slice(start, end)` of both cut sequences;
* `resolveScale`    — `scale_dut = fit_coef[1] * scale_ref`, residual
  passed through.

Failure kinds (`CalErr`) label the concrete Python exceptions raised at the
corresponding program points (see the doc comment on `CalErr`).
-/

namespace LoadcellCal

/-- Failure kinds of the pipeline.  Each constructor labels the concrete
exception the Python code raises at the corresponding program point:

* `insufficientData`: the `AssertionError`/`ValueError` raised by
  `interpolate_2x` for inputs of length < 2, and the `TypeError`
  (empty vector) or `IndexError` (`resid[0]` on the empty residual array
  that `np.linalg.lstsq` returns for an underdetermined system, i.e. at
  most 2 points) raised inside a degree-1 polynomial fit;
* `shapeMismatch`: the `assert len(x) == len(y)` in `line_fit_residual`
  and numpy's length check inside `polyfit`;
* `degenerateFit`: the failure of a degree-1 fit whose x-data has a single
  distinct value (rank-deficient Vandermonde: `lstsq` returns an empty
  residual array, so `resid[0]` raises `IndexError`; the domain scaling of
  `Polynomial.fit` also degenerates);
* `emptyWindow`: the `IndexError` raised by the fancy index `[[0, -1]]` on
  the empty result of `np.where` when no sample exceeds the threshold
  (`np.max`/`np.min` on an empty aligned sequence is also mapped here via
  `insufficientData`, see `selectWindow`). -/
inductive CalErr where
  | insufficientData
  | shapeMismatch
  | degenerateFit
  | emptyWindow
deriving DecidableEq

/-- Result of `np.polynomial.polynomial.Polynomial.fit(x, y, 1, full=True)`
followed by `convert().coef` and `resid[0]`: intercept `c0`, slope `c1`
(coefficients in the unscaled variable) and the least-squares residual
`resid` (sum of squared errors, as returned by `lstsq`). -/
structure FitFull where
  c0 : ℚ
  c1 : ℚ
  resid : ℚ
deriving DecidableEq

/-- Python list/array slicing `l[a:b]` for non-negative bounds:
`(l.drop a).take (b - a)` (with the usual clamping, exactly as in Python).
The source slices with the non-negative bounds `1:m`, `0:m-1` and
`start:end`; `m - 1` is taken in `ℕ`, which agrees with Python whenever
`m ≥ 1` (an aligner input of length `0` cannot arise from the resampler,
whose outputs have length `≥ 3`, and in Python it fails inside the fit
anyway). -/
def pySlice (l : List ℚ) (a b : ℕ) : List ℚ :=
  (l.drop a).take (b - a)

/-- Model of `np.max` on a (nonempty) sequence; returns `0` on `[]`, a case
the callers guard. -/
def npMax : List ℚ → ℚ
  | [] => 0
  | [a] => a
  | a :: b :: l => max a (npMax (b :: l))

/-- Model of `np.min` on a (nonempty) sequence; returns `0` on `[]`, a case
the callers guard. -/
def npMin : List ℚ → ℚ
  | [] => 0
  | [a] => a
  | a :: b :: l => min a (npMin (b :: l))

/-- Whether every element of the list equals its head (the rank-deficiency
condition of the degree-1 Vandermonde matrix). -/
def allSameB : List ℚ → Bool
  | [] => true
  | a :: l => l.all fun v => decide (v = a)

/-- Sum of squared errors of the line `v = c1 * u + c0` over the paired
samples of `x` and `y`. -/
def sse (x y : List ℚ) (c0 c1 : ℚ) : ℚ :=
  (List.zipWith (fun u v => (v - (c1 * u + c0)) ^ 2) x y).sum

/-- Model of `np.polynomial.polynomial.Polynomial.fit(x, y, 1, full=True)`
together with the subsequent accesses `convert().coef` and `resid[0]` that
the source performs on its result.  In exact arithmetic the fitted line is
the ordinary least-squares line and the residual is its sum of squared
errors; `lstsq` yields an empty residual array (hence `resid[0]` raises)
when the system is underdetermined (at most 2 points) or rank deficient
(all abscissas equal), which the model reports as errors. -/
def polyfitFull (x y : List ℚ) : Except CalErr FitFull :=
  if x.length ≠ y.length then .error .shapeMismatch
  else if x.length ≤ 2 then .error .insufficientData
  else if allSameB x then .error .degenerateFit
  else
    let n : ℚ := (x.length : ℚ)
    let sx := x.sum
    let sy := y.sum
    let sxx := (x.map fun v => v * v).sum
    let sxy := (List.zipWith (fun u v => u * v) x y).sum
    let dd := n * sxx - sx * sx
    let c1 := (n * sxy - sx * sy) / dd
    let c0 := (sy - c1 * sx) / n
    .ok ⟨c0, c1, sse x y c0 c1⟩

/-- Source `line_fit_residual(x, y)`: the residual of a degree-1 fit of `y`
against `x`.  The source's `assert len(x) == len(y)` coincides with the
shape check of `polyfitFull`. -/
def line_fit_residual (x y : List ℚ) : Except CalErr ℚ :=
  match polyfitFull x y with
  | .error e => .error e
  | .ok f => .ok f.resid

/-- Cubic Hermite basis evaluation on one unit-width spline piece with end
values `p0`, `p1` and end slopes `m0`, `m1`, at local parameter `t`. -/
def hermite (p0 p1 m0 m1 t : ℚ) : ℚ :=
  (2 * t ^ 3 - 3 * t ^ 2 + 1) * p0 + (t ^ 3 - 2 * t ^ 2 + t) * m0
    + (-2 * t ^ 3 + 3 * t ^ 2) * p1 + (t ^ 3 - t ^ 2) * m1

/-- Forward sweep of the Thomas tridiagonal solver: rows `(a, b, c, d)` are
(subdiagonal, diagonal, superdiagonal, right-hand side); produces the
eliminated `(c', d')` per row. -/
def thomasForward : ℚ → ℚ → List (ℚ × ℚ × ℚ × ℚ) → List (ℚ × ℚ)
  | _, _, [] => []
  | cp, dp, (a, b, c, d) :: rest =>
    let m := b - a * cp
    let c2 := c / m
    let d2 := (d - a * dp) / m
    (c2, d2) :: thomasForward c2 d2 rest

/-- Backward substitution of the Thomas solver over the reversed eliminated
rows. -/
def thomasBack : ℚ → List (ℚ × ℚ) → List ℚ
  | _, [] => []
  | xn, (c2, d2) :: rest =>
    let x := d2 - c2 * xn
    x :: thomasBack x rest

/-- Thomas tridiagonal solve (the last row's superdiagonal is `0`, so the
initial `0` seed of the backward pass is inert). -/
def thomasSolve (rows : List (ℚ × ℚ × ℚ × ℚ)) : List ℚ :=
  (thomasBack 0 (thomasForward 0 0 rows).reverse).reverse

/-- Rows of the not-a-knot spline system for first derivatives on the
uniform knots `0, 1, ..., n-1` (`n ≥ 4`), exactly scipy's banded system:
boundary rows `s₀ + 2 s₁ = (5 Δ₀ + Δ₁)/2` and
`2 s_{n-2} + s_{n-1} = (Δ_{n-3} + 5 Δ_{n-2})/2`, interior rows
`s_{i-1} + 4 s_i + s_{i+1} = 3 (Δ_{i-1} + Δ_i)`, where `Δ_i = y_{i+1} - y_i`. -/
def notAKnotRows (y : List ℚ) : List (ℚ × ℚ × ℚ × ℚ) :=
  let sl := List.zipWith (fun a b => b - a) y y.tail
  let first := ((0 : ℚ), (1 : ℚ), (2 : ℚ), (5 * sl.getD 0 0 + sl.getD 1 0) / 2)
  let middle := List.zipWith (fun a b => ((1 : ℚ), (4 : ℚ), (1 : ℚ), 3 * (a + b))) sl sl.tail
  let last := ((2 : ℚ), (1 : ℚ), (0 : ℚ),
    (sl.getD (y.length - 3) 0 + 5 * sl.getD (y.length - 2) 0) / 2)
  first :: middle ++ [last]

/-- First derivatives of scipy's `CubicSpline` (default `bc_type`, i.e.
not-a-knot) at the integer knots: a straight line for 2 points, the unique
parabola for 3 points, and the tridiagonal not-a-knot system for `n ≥ 4`
(matching scipy's special cases). -/
def notAKnotSlopes (y : List ℚ) : List ℚ :=
  match y with
  | [] => []
  | [_] => []
  | [y0, y1] => [y1 - y0, y1 - y0]
  | [y0, y1, y2] =>
    let s0 := y1 - y0
    let s1 := y2 - y1
    [(3 * s0 - s1) / 2, (s0 + s1) / 2, (3 * s1 - s0) / 2]
  | y0 :: y1 :: y2 :: y3 :: rest =>
    thomasSolve (notAKnotRows (y0 :: y1 :: y2 :: y3 :: rest))

/-- Evaluation of the interpolating spline with knot values `y` and knot
slopes `s` at the half-integer abscissa `j / 2`: piece
`i = min (j / 2) (n - 2)` in Hermite form at local parameter `j/2 - i`
(the last knot is evaluated as the right end of the last piece, as in
scipy's piecewise-polynomial evaluation). -/
def splineEvalAt (y s : List ℚ) (j : ℕ) : ℚ :=
  let i := min (j / 2) (y.length - 2)
  let t := (j : ℚ) / 2 - (i : ℚ)
  hermite (y.getD i 0) (y.getD (i + 1) 0) (s.getD i 0) (s.getD (i + 1) 0) t

/-- Source `interpolate_2x(vals)`: evaluates the cubic spline through
`(i, vals[i])` at the abscissas `0, 0.5, ..., n-1`, producing `2n - 1`
values.  For `n = 0` the source's `assert len(xp)*2 - 1 == len(x)` fails
and for `n = 1` scipy's `CubicSpline` rejects the single point, both
modelled as `insufficientData`. -/
def interpolate_2x (vals : List ℚ) : Except CalErr (List ℚ) :=
  if vals.length < 2 then .error .insufficientData
  else .ok ((List.range (2 * vals.length - 1)).map (splineEvalAt vals (notAKnotSlopes vals)))

/-- Source phase alignment: with `m = min(len(interp_ref), len(interp_dut))`,
candidate A is `(interp_dut[1:m], interp_ref[0:m-1])` and candidate B is
`(interp_dut[0:m-1], interp_ref[1:m])`; Python's
`min(candA, candB, key=line_fit_residual)` evaluates the key of candidate A
first (propagating its exception first) and returns the first candidate
with minimal key, so a tie selects candidate A. -/
def alignStage (interp_ref interp_dut : List ℚ) : Except CalErr (List ℚ × List ℚ) :=
  let m := min interp_ref.length interp_dut.length
  match line_fit_residual (pySlice interp_dut 1 m) (pySlice interp_ref 0 (m - 1)),
        line_fit_residual (pySlice interp_dut 0 (m - 1)) (pySlice interp_ref 1 m) with
  | .ok rA, .ok rB =>
    .ok (if rA ≤ rB then (pySlice interp_dut 1 m, pySlice interp_ref 0 (m - 1))
         else (pySlice interp_dut 0 (m - 1), pySlice interp_ref 1 m))
  | .error e, _ => .error e
  | .ok _, .error e => .error e

/-- Source active-window selection
`start, end = np.where(cut_ref > fraction*delta + ref_min)[0][[0, -1]]`:
the first and last index whose value strictly exceeds
`fraction * (max - min) + min`; the fancy index on an empty `np.where`
result raises (`emptyWindow`).  `np.max`/`np.min` on an empty sequence also
raise, modelled as `insufficientData`. -/
def selectWindow (cut_ref : List ℚ) (fraction : ℚ) : Except CalErr (ℕ × ℕ) :=
  if cut_ref.isEmpty then .error .insufficientData
  else
    let refMax := npMax cut_ref
    let refMin := npMin cut_ref
    let idxs := (List.range cut_ref.length).filter fun i =>
      decide (fraction * (refMax - refMin) + refMin < cut_ref.getD i 0)
    match idxs.head?, idxs.getLast? with
    | some s, some e => .ok (s, e)
    | _, _ => .error .emptyWindow

/-- Source window-restricted fit: `slice_to_fit = slice(start, end)` applied
to both cut sequences (a half-open slice), then the degree-1 fit of
`cut_ref[slice]` against `cut_dut[slice]` with `full=True`. -/
def windowFit (cut_dut cut_ref : List ℚ) (fraction : ℚ) : Except CalErr FitFull :=
  match selectWindow cut_ref fraction with
  | .error e => .error e
  | .ok se => polyfitFull (pySlice cut_dut se.1 se.2) (pySlice cut_ref se.1 se.2)

/-- Source scale resolution: `scale_dut = fit_coef[1] * scale_ref`, returned
together with the fit residual `resid[0]`. -/
def resolveScale (f : FitFull) (scale_ref : ℚ) : ℚ × ℚ :=
  (f.c1 * scale_ref, f.resid)

/-- The pipeline of `parse_calibration_curve` up to and including the
window-restricted fit, with the source's hardcoded
`min_load_fraction = 0.1`. -/
def pipelineFit (values_ref values_dut : List ℚ) : Except CalErr FitFull :=
  match interpolate_2x values_ref with
  | .error e => .error e
  | .ok interp_ref =>
    match interpolate_2x values_dut with
    | .error e => .error e
    | .ok interp_dut =>
      match alignStage interp_ref interp_dut with
      | .error e => .error e
      | .ok cuts => windowFit cuts.1 cuts.2 (1 / 10)

/-- Source `parse_calibration_curve(values_ref, values_dut, scale_ref)`:
returns `(scale_dut, residual)` on success. -/
def parse_calibration_curve (values_ref values_dut : List ℚ) (scale_ref : ℚ) :
    Except CalErr (ℚ × ℚ) :=
  match pipelineFit values_ref values_dut with
  | .error e => .error e
  | .ok f => .ok (resolveScale f scale_ref)

/-! ### Helper lemmas -/

lemma getD_map_range (f : ℕ → ℚ) {m k : ℕ} (hk : k < m) :
    ((List.range m).map f).getD k 0 = f k := by
  rw [List.getD_eq_getElem?_getD, List.getElem?_map, List.getElem?_range hk]
  rfl

lemma pySlice_len (l : List ℚ) (a b : ℕ) :
    (pySlice l a b).length = min (b - a) (l.length - a) := by
  simp [pySlice]

lemma line_fit_residual_error_of_short {x y : List ℚ} (hxy : x.length = y.length)
    (hle : x.length ≤ 2) :
    line_fit_residual x y = .error .insufficientData := by
  unfold line_fit_residual polyfitFull
  rw [if_neg (by omega), if_pos hle]

lemma npMax_mem : ∀ (l : List ℚ), l ≠ [] → npMax l ∈ l
  | [], h => absurd rfl h
  | [a], _ => by simp [npMax]
  | a :: b :: t, _ => by
    rcases max_choice a (npMax (b :: t)) with h | h
    · rw [npMax, h]
      exact List.mem_cons_self a _
    · rw [npMax, h]
      exact List.mem_cons_of_mem a (npMax_mem (b :: t) (List.cons_ne_nil b t))

lemma le_npMax : ∀ (l : List ℚ) (v : ℚ), v ∈ l → v ≤ npMax l
  | [], _, h => absurd h (List.not_mem_nil _)
  | [a], v, h => by
    rw [List.mem_singleton] at h
    subst h
    simp [npMax]
  | a :: b :: t, v, h => by
    rw [npMax]
    rcases List.mem_cons.mp h with rfl | h2
    · exact le_max_left _ _
    · exact le_trans (le_npMax (b :: t) v h2) (le_max_right _ _)

lemma npMin_le : ∀ (l : List ℚ) (v : ℚ), v ∈ l → npMin l ≤ v
  | [], _, h => absurd h (List.not_mem_nil _)
  | [a], v, h => by
    rw [List.mem_singleton] at h
    subst h
    simp [npMin]
  | a :: b :: t, v, h => by
    rw [npMin]
    rcases List.mem_cons.mp h with rfl | h2
    · exact min_le_left _ _
    · exact le_trans (min_le_right _ _) (npMin_le (b :: t) v h2)

lemma head_filter_range {p : ℕ → Bool} (n : ℕ) :
    ∀ s, ((List.range n).filter p).head? = some s →
      s < n ∧ p s = true ∧ ∀ j < s, p j = false := by
  induction n with
  | zero =>
    intro s h
    simp at h
  | succ n ih =>
    intro s h
    rw [List.range_succ, List.filter_append] at h
    cases hfil : (List.range n).filter p with
    | nil =>
      rw [hfil, List.nil_append, List.filter_singleton] at h
      cases hpn : p n with
      | false =>
        rw [hpn] at h
        simp at h
      | true =>
        rw [hpn] at h
        simp at h
        subst h
        refine ⟨Nat.lt_succ_self n, hpn, ?_⟩
        intro j hj
        have hmem := List.filter_eq_nil_iff.mp hfil j (List.mem_range.mpr (by omega))
        simpa using hmem
    | cons a t =>
      rw [hfil] at h
      simp at h
      obtain ⟨h1, h2, h3⟩ := ih a (by rw [hfil]; rfl)
      subst h
      exact ⟨by omega, h2, h3⟩

lemma getLast_filter_range {p : ℕ → Bool} (n : ℕ) :
    ∀ e, ((List.range n).filter p).getLast? = some e →
      e < n ∧ p e = true ∧ ∀ j, e < j → j < n → p j = false := by
  induction n with
  | zero =>
    intro e h
    simp at h
  | succ n ih =>
    intro e h
    rw [List.range_succ, List.filter_append, List.filter_singleton] at h
    cases hpn : p n with
    | true =>
      rw [hpn] at h
      simp only [cond_true] at h
      rw [List.getLast?_concat] at h
      have he : n = e := by simpa using h
      subst he
      refine ⟨Nat.lt_succ_self n, hpn, ?_⟩
      intro j hj hjn
      omega
    | false =>
      rw [hpn] at h
      simp only [cond_false, List.append_nil] at h
      obtain ⟨h1, h2, h3⟩ := ih e h
      refine ⟨by omega, h2, ?_⟩
      intro j hj hjn
      by_cases hje : j = n
      · subst hje
        exact hpn
      · exact h3 j hj (by omega)

/-! ### Claims -/

/-- Claim C3: for every input of length `n ≥ 2` the resampler succeeds and
returns exactly `2n - 1` values, and the value at every even virtual index
`2i` equals the original input value at index `i` exactly (the interpolant
passes through the original points). -/
theorem c3_theorem (vals : List ℚ) (h2 : 2 ≤ vals.length) :
    ∃ out, interpolate_2x vals = .ok out ∧ out.length = 2 * vals.length - 1 ∧
      ∀ i < vals.length, out.getD (2 * i) 0 = vals.getD i 0 := by
  refine ⟨(List.range (2 * vals.length - 1)).map (splineEvalAt vals (notAKnotSlopes vals)),
    ?_, by simp, ?_⟩
  · unfold interpolate_2x
    rw [if_neg (by omega)]
  · intro i hi
    rw [getD_map_range (splineEvalAt vals (notAKnotSlopes vals))
      (show 2 * i < 2 * vals.length - 1 by omega)]
    simp only [splineEvalAt]
    have h2i : 2 * i / 2 = i := by omega
    rw [h2i]
    by_cases hle : i ≤ vals.length - 2
    · rw [min_eq_left hle]
      have ht : ((2 * i : ℕ) : ℚ) / 2 - (i : ℚ) = 0 := by
        push_cast
        ring
      rw [ht]
      norm_num [hermite]
    · rw [min_eq_right (by omega : vals.length - 2 ≤ i)]
      have ht : ((2 * i : ℕ) : ℚ) / 2 - ((vals.length - 2 : ℕ) : ℚ) = 1 := by
        have h2i' : (2 * i : ℕ) = 2 * vals.length - 2 := by omega
        rw [h2i', Nat.cast_sub (by omega : 2 ≤ 2 * vals.length),
          Nat.cast_sub (by omega : 2 ≤ vals.length)]
        push_cast
        ring
      rw [ht]
      have hidx : vals.length - 2 + 1 = i := by omega
      rw [hidx]
      norm_num [hermite]

/-- Witness for C3 at the concrete input `[0, 1, 4]`. -/
theorem c3_witness :
    2 ≤ ([0, 1, 4] : List ℚ).length ∧
      ∃ out, interpolate_2x ([0, 1, 4] : List ℚ) = .ok out ∧
        out.length = 2 * ([0, 1, 4] : List ℚ).length - 1 ∧
        ∀ i < ([0, 1, 4] : List ℚ).length,
          out.getD (2 * i) 0 = ([0, 1, 4] : List ℚ).getD i 0 :=
  ⟨by simp, c3_theorem [0, 1, 4] (by simp)⟩

/-- Claim C8: a stage receiving fewer samples than its minimum fails with
the insufficient-data error: the resampler for `n < 2` (the source's
`assert`/scipy validation) and the phase aligner for
`m = min(len(ref_interp), len(dut_interp)) < 3` (each candidate then has at
most two samples, so the residual computation fails; the Python `min` call
raises before returning). -/
theorem c8_theorem :
    (∀ vals : List ℚ, vals.length < 2 → interpolate_2x vals = .error .insufficientData) ∧
    (∀ interp_ref interp_dut : List ℚ, 1 ≤ interp_ref.length → 1 ≤ interp_dut.length →
      min interp_ref.length interp_dut.length < 3 →
      alignStage interp_ref interp_dut = .error .insufficientData) := by
  constructor
  · intro vals h
    unfold interpolate_2x
    rw [if_pos h]
  · intro ri di hri hdi hm
    have hA : line_fit_residual (pySlice di 1 (min ri.length di.length))
        (pySlice ri 0 (min ri.length di.length - 1)) = .error .insufficientData := by
      apply line_fit_residual_error_of_short
      · rw [pySlice_len, pySlice_len]
        omega
      · rw [pySlice_len]
        omega
    simp only [alignStage]
    rw [hA]

/-- Witness for C8: the resampler at the one-sample input `[5]` and the
aligner at the pair `[1, 2]`, `[3, 4]` (where `m = 2 < 3`). -/
theorem c8_witness :
    (([5] : List ℚ).length < 2 ∧ interpolate_2x [5] = .error .insufficientData) ∧
    (1 ≤ ([1, 2] : List ℚ).length ∧ 1 ≤ ([3, 4] : List ℚ).length ∧
      min ([1, 2] : List ℚ).length ([3, 4] : List ℚ).length < 3 ∧
      alignStage [1, 2] [3, 4] = .error .insufficientData) :=
  ⟨⟨by simp, c8_theorem.1 [5] (by simp)⟩,
   ⟨by simp, by simp, by simp,
    c8_theorem.2 [1, 2] [3, 4] (by simp) (by simp) (by simp)⟩⟩

/-- Counterexample to claim C1 as stated: at `m = 3` (here
`ref_interp = dut_interp = [0, 1, 2]`, two mathematically identical
candidates) the aligner does not return Candidate A's pair — each candidate
has only two samples, the two-point degree-1 fit yields no residual
(`lstsq` returns an empty residual array, `resid[0]` raises), and the
aligner fails. -/
theorem c1_counterexample :
    min (List.length ([0, 1, 2] : List ℚ)) (List.length ([0, 1, 2] : List ℚ)) = 3 ∧
    alignStage [0, 1, 2] [0, 1, 2] = .error .insufficientData :=
  ⟨by simp, rfl⟩

/-- Claim C1 (amended): whenever both candidates' residuals are defined
(which requires `m ≥ 4` and a non-constant DUT cut for each candidate; at
`m = 3` the two-point fits yield no residual and the aligner fails), the
phase aligner builds exactly the two candidates
A = `(dut_interp[1:m], ref_interp[0:m-1])` and
B = `(dut_interp[0:m-1], ref_interp[1:m])`, scores each by the degree-1
unweighted least-squares line-fit residual, and returns the pair of the
candidate with the strictly smaller residual, ties resolving to
Candidate A. -/
theorem c1_theorem (interp_ref interp_dut : List ℚ) (rA rB : ℚ)
    (hA : line_fit_residual (pySlice interp_dut 1 (min interp_ref.length interp_dut.length))
      (pySlice interp_ref 0 (min interp_ref.length interp_dut.length - 1)) = .ok rA)
    (hB : line_fit_residual (pySlice interp_dut 0 (min interp_ref.length interp_dut.length - 1))
      (pySlice interp_ref 1 (min interp_ref.length interp_dut.length)) = .ok rB) :
    alignStage interp_ref interp_dut =
      .ok (if rA ≤ rB then
          (pySlice interp_dut 1 (min interp_ref.length interp_dut.length),
            pySlice interp_ref 0 (min interp_ref.length interp_dut.length - 1))
        else
          (pySlice interp_dut 0 (min interp_ref.length interp_dut.length - 1),
            pySlice interp_ref 1 (min interp_ref.length interp_dut.length))) := by
  simp only [alignStage]
  rw [hA, hB]

/-- Witness for C1 (amended) at `ref_interp = dut_interp = [0, 1, 2, 4]`
(`m = 4`): candidate A's residual `1/14` is strictly smaller than candidate
B's `1/6`, so candidate A's pair is returned. -/
theorem c1_witness :
    line_fit_residual (pySlice [0, 1, 2, 4] 1 4) (pySlice [0, 1, 2, 4] 0 3) = .ok (1 / 14) ∧
    line_fit_residual (pySlice [0, 1, 2, 4] 0 3) (pySlice [0, 1, 2, 4] 1 4) = .ok (1 / 6) ∧
    alignStage [0, 1, 2, 4] [0, 1, 2, 4] =
      .ok (if (1 / 14 : ℚ) ≤ 1 / 6 then
          (pySlice [0, 1, 2, 4] 1 4, pySlice [0, 1, 2, 4] 0 3)
        else (pySlice [0, 1, 2, 4] 0 3, pySlice [0, 1, 2, 4] 1 4)) := by
  have hA : line_fit_residual (pySlice [0, 1, 2, 4] 1 4) (pySlice [0, 1, 2, 4] 0 3)
      = .ok (1 / 14) := by
    norm_num [line_fit_residual, polyfitFull, pySlice, allSameB, sse, List.all_cons,
      List.zipWith]
  have hB : line_fit_residual (pySlice [0, 1, 2, 4] 0 3) (pySlice [0, 1, 2, 4] 1 4)
      = .ok (1 / 6) := by
    norm_num [line_fit_residual, polyfitFull, pySlice, allSameB, sse, List.all_cons,
      List.zipWith]
  exact ⟨hA, hB, c1_theorem [0, 1, 2, 4] [0, 1, 2, 4] (1 / 14) (1 / 6) hA hB⟩

/-- Counterexample to claim C9: on the nearly constant pair
`ref_interp = dut_interp = [0, 1e-9, 2e-9, 3e-9]` both candidates have
exactly equal residual `0` (within any floating-point epsilon) and the full
value range is only `3e-9`, yet the aligner raises no ambiguity error — it
returns Candidate A's pair.  The source has no ambiguity check at all. -/
theorem c9_counterexample :
    pySlice [0, 1 / 1000000000, 2 / 1000000000, 3 / 1000000000] 1 4
        = [1 / 1000000000, 2 / 1000000000, 3 / 1000000000] ∧
    pySlice [0, 1 / 1000000000, 2 / 1000000000, 3 / 1000000000] 0 3
        = [0, 1 / 1000000000, 2 / 1000000000] ∧
    line_fit_residual [1 / 1000000000, 2 / 1000000000, 3 / 1000000000]
        [0, 1 / 1000000000, 2 / 1000000000] = .ok 0 ∧
    line_fit_residual [0, 1 / 1000000000, 2 / 1000000000]
        [1 / 1000000000, 2 / 1000000000, 3 / 1000000000] = .ok 0 ∧
    npMax [0, 1 / 1000000000, 2 / 1000000000, 3 / 1000000000]
        - npMin [0, 1 / 1000000000, 2 / 1000000000, 3 / 1000000000] = 3 / 1000000000 ∧
    alignStage [0, 1 / 1000000000, 2 / 1000000000, 3 / 1000000000]
        [0, 1 / 1000000000, 2 / 1000000000, 3 / 1000000000]
      = .ok ([1 / 1000000000, 2 / 1000000000, 3 / 1000000000],
          [0, 1 / 1000000000, 2 / 1000000000]) := by
  refine ⟨?_, ?_, ?_, ?_, ?_, ?_⟩ <;>
    norm_num [alignStage, line_fit_residual, polyfitFull, pySlice, allSameB, sse,
      List.all_cons, List.zipWith, npMax, npMin]

/-- Claim C9 (amended): the phase aligner performs no ambiguity detection;
whenever both candidates' residuals are defined and exactly equal — in
particular for degenerate, nearly constant data — it deterministically
returns Candidate A's pair instead of failing. -/
theorem c9_theorem (interp_ref interp_dut : List ℚ) (r : ℚ)
    (hA : line_fit_residual (pySlice interp_dut 1 (min interp_ref.length interp_dut.length))
      (pySlice interp_ref 0 (min interp_ref.length interp_dut.length - 1)) = .ok r)
    (hB : line_fit_residual (pySlice interp_dut 0 (min interp_ref.length interp_dut.length - 1))
      (pySlice interp_ref 1 (min interp_ref.length interp_dut.length)) = .ok r) :
    alignStage interp_ref interp_dut =
      .ok (pySlice interp_dut 1 (min interp_ref.length interp_dut.length),
        pySlice interp_ref 0 (min interp_ref.length interp_dut.length - 1)) := by
  simp only [alignStage]
  rw [hA, hB]
  simp

/-- Witness for C9 (amended) at the nearly constant tied input
`[0, 1e-9, 2e-9, 3e-9]` (both residuals `0`). -/
theorem c9_witness :
    line_fit_residual (pySlice [0, 1 / 1000000000, 2 / 1000000000, 3 / 1000000000] 1 4)
        (pySlice [0, 1 / 1000000000, 2 / 1000000000, 3 / 1000000000] 0 3) = .ok 0 ∧
    line_fit_residual (pySlice [0, 1 / 1000000000, 2 / 1000000000, 3 / 1000000000] 0 3)
        (pySlice [0, 1 / 1000000000, 2 / 1000000000, 3 / 1000000000] 1 4) = .ok 0 ∧
    alignStage [0, 1 / 1000000000, 2 / 1000000000, 3 / 1000000000]
        [0, 1 / 1000000000, 2 / 1000000000, 3 / 1000000000]
      = .ok (pySlice [0, 1 / 1000000000, 2 / 1000000000, 3 / 1000000000] 1 4,
          pySlice [0, 1 / 1000000000, 2 / 1000000000, 3 / 1000000000] 0 3) := by
  have hA : line_fit_residual (pySlice [0, 1 / 1000000000, 2 / 1000000000, 3 / 1000000000] 1 4)
      (pySlice [0, 1 / 1000000000, 2 / 1000000000, 3 / 1000000000] 0 3) = .ok 0 := by
    norm_num [line_fit_residual, polyfitFull, pySlice, allSameB, sse, List.all_cons,
      List.zipWith]
  have hB : line_fit_residual (pySlice [0, 1 / 1000000000, 2 / 1000000000, 3 / 1000000000] 0 3)
      (pySlice [0, 1 / 1000000000, 2 / 1000000000, 3 / 1000000000] 1 4) = .ok 0 := by
    norm_num [line_fit_residual, polyfitFull, pySlice, allSameB, sse, List.all_cons,
      List.zipWith]
  exact ⟨hA, hB,
    c9_theorem [0, 1 / 1000000000, 2 / 1000000000, 3 / 1000000000]
      [0, 1 / 1000000000, 2 / 1000000000, 3 / 1000000000] 0 hA hB⟩

/-- Claim C4: for (nonempty) resampled inputs of lengths `p` and `q`, both
alignment candidates consist of two sequences of identical length
`min(p, q) - 1`, and consequently any pair the aligner returns has both
components of length `min(p, q) - 1`. -/
theorem c4_theorem (interp_ref interp_dut : List ℚ) (hr : 1 ≤ interp_ref.length)
    (hd : 1 ≤ interp_dut.length) :
    (pySlice interp_dut 1 (min interp_ref.length interp_dut.length)).length
        = min interp_ref.length interp_dut.length - 1 ∧
    (pySlice interp_ref 0 (min interp_ref.length interp_dut.length - 1)).length
        = min interp_ref.length interp_dut.length - 1 ∧
    (pySlice interp_dut 0 (min interp_ref.length interp_dut.length - 1)).length
        = min interp_ref.length interp_dut.length - 1 ∧
    (pySlice interp_ref 1 (min interp_ref.length interp_dut.length)).length
        = min interp_ref.length interp_dut.length - 1 ∧
    ∀ pr, alignStage interp_ref interp_dut = .ok pr →
      pr.1.length = min interp_ref.length interp_dut.length - 1 ∧
      pr.2.length = min interp_ref.length interp_dut.length - 1 := by
  have l1 : (pySlice interp_dut 1 (min interp_ref.length interp_dut.length)).length
      = min interp_ref.length interp_dut.length - 1 := by
    rw [pySlice_len]
    omega
  have l2 : (pySlice interp_ref 0 (min interp_ref.length interp_dut.length - 1)).length
      = min interp_ref.length interp_dut.length - 1 := by
    rw [pySlice_len]
    omega
  have l3 : (pySlice interp_dut 0 (min interp_ref.length interp_dut.length - 1)).length
      = min interp_ref.length interp_dut.length - 1 := by
    rw [pySlice_len]
    omega
  have l4 : (pySlice interp_ref 1 (min interp_ref.length interp_dut.length)).length
      = min interp_ref.length interp_dut.length - 1 := by
    rw [pySlice_len]
    omega
  refine ⟨l1, l2, l3, l4, ?_⟩
  intro pr hpr
  simp only [alignStage] at hpr
  split at hpr
  · injection hpr with hpr
    subst hpr
    split
    · exact ⟨l1, l2⟩
    · exact ⟨l3, l4⟩
  · exact absurd hpr (by simp)
  · exact absurd hpr (by simp)

/-- Witness for C4 at `ref_interp = dut_interp = [0, 1, 2, 4]`. -/
theorem c4_witness :
    1 ≤ ([0, 1, 2, 4] : List ℚ).length ∧ 1 ≤ ([0, 1, 2, 4] : List ℚ).length ∧
    ((pySlice [0, 1, 2, 4] 1 (min (List.length ([0, 1, 2, 4] : List ℚ))
          (List.length ([0, 1, 2, 4] : List ℚ)))).length
        = min (List.length ([0, 1, 2, 4] : List ℚ)) (List.length ([0, 1, 2, 4] : List ℚ)) - 1 ∧
      (pySlice [0, 1, 2, 4] 0 (min (List.length ([0, 1, 2, 4] : List ℚ))
          (List.length ([0, 1, 2, 4] : List ℚ)) - 1)).length
        = min (List.length ([0, 1, 2, 4] : List ℚ)) (List.length ([0, 1, 2, 4] : List ℚ)) - 1 ∧
      (pySlice [0, 1, 2, 4] 0 (min (List.length ([0, 1, 2, 4] : List ℚ))
          (List.length ([0, 1, 2, 4] : List ℚ)) - 1)).length
        = min (List.length ([0, 1, 2, 4] : List ℚ)) (List.length ([0, 1, 2, 4] : List ℚ)) - 1 ∧
      (pySlice [0, 1, 2, 4] 1 (min (List.length ([0, 1, 2, 4] : List ℚ))
          (List.length ([0, 1, 2, 4] : List ℚ)))).length
        = min (List.length ([0, 1, 2, 4] : List ℚ)) (List.length ([0, 1, 2, 4] : List ℚ)) - 1 ∧
      ∀ pr, alignStage [0, 1, 2, 4] [0, 1, 2, 4] = .ok pr →
        pr.1.length
            = min (List.length ([0, 1, 2, 4] : List ℚ)) (List.length ([0, 1, 2, 4] : List ℚ)) - 1 ∧
        pr.2.length
            = min (List.length ([0, 1, 2, 4] : List ℚ))
                (List.length ([0, 1, 2, 4] : List ℚ)) - 1) :=
  ⟨by simp, by simp, c4_theorem [0, 1, 2, 4] [0, 1, 2, 4] (by simp) (by simp)⟩

/-- Counterexample to claim C2 as stated: for the aligned pair
`cut_dut = [0, 1, 2, 3, 0]`, `cut_ref = [0, 4, 8, 12, 0]` with
`fraction = 0.1`, the window is `(start, end) = (1, 3)`, and a fit over the
inclusive range (samples `1..3`: `x = [1, 2, 3]`, `y = [4, 8, 12]`) would
succeed with slope `4` and residual `0`; but the code fits over the
half-open slice `slice(start, end)` — only two samples — and fails, so the
sample at index `end` is not included in the fit. -/
theorem c2_counterexample :
    selectWindow [0, 4, 8, 12, 0] (1 / 10) = .ok (1, 3) ∧
    polyfitFull [1, 2, 3] [4, 8, 12] = .ok ⟨0, 4, 0⟩ ∧
    windowFit [0, 1, 2, 3, 0] [0, 4, 8, 12, 0] (1 / 10) = .error .insufficientData := by
  refine ⟨?_, ?_, ?_⟩
  · norm_num [selectWindow, npMax, npMin, List.range_succ, List.filter_append, List.filter]
  · norm_num [polyfitFull, allSameB, sse, List.all_cons, List.zipWith]
  · norm_num [windowFit, selectWindow, npMax, npMin, List.range_succ, List.filter_append,
      List.filter, pySlice, polyfitFull]

/-- Claim C2 (amended): `start` is the first and `end` the last index at
which the aligned REF value strictly exceeds `min + fraction * (max - min)`,
and the subsequent line fit is performed over the half-open index range
`[start, end)` of both `cut_dut` and `cut_ref` — the sample at index `end`
is excluded from the fit. -/
theorem c2_theorem (cut_dut cut_ref : List ℚ) (fraction : ℚ) (s e : ℕ)
    (hsel : selectWindow cut_ref fraction = .ok (s, e)) :
    (s < cut_ref.length ∧
      fraction * (npMax cut_ref - npMin cut_ref) + npMin cut_ref < cut_ref.getD s 0 ∧
      (∀ j < s,
        ¬(fraction * (npMax cut_ref - npMin cut_ref) + npMin cut_ref < cut_ref.getD j 0)) ∧
      e < cut_ref.length ∧
      fraction * (npMax cut_ref - npMin cut_ref) + npMin cut_ref < cut_ref.getD e 0 ∧
      (∀ j, e < j → j < cut_ref.length →
        ¬(fraction * (npMax cut_ref - npMin cut_ref) + npMin cut_ref < cut_ref.getD j 0))) ∧
    windowFit cut_dut cut_ref fraction =
      polyfitFull ((cut_dut.drop s).take (e - s)) ((cut_ref.drop s).take (e - s)) := by
  have hwf : windowFit cut_dut cut_ref fraction =
      polyfitFull ((cut_dut.drop s).take (e - s)) ((cut_ref.drop s).take (e - s)) := by
    unfold windowFit
    rw [hsel]
    rfl
  refine ⟨?_, hwf⟩
  simp only [selectWindow] at hsel
  split at hsel
  · exact absurd hsel (by simp)
  · split at hsel
    · rename_i s' e' hh hl
      rw [Except.ok.injEq, Prod.mk.injEq] at hsel
      obtain ⟨rfl, rfl⟩ := hsel
      obtain ⟨hs1, hs2, hs3⟩ := head_filter_range cut_ref.length s' hh
      obtain ⟨he1, he2, he3⟩ := getLast_filter_range cut_ref.length e' hl
      refine ⟨hs1, by simpa using hs2, ?_, he1, by simpa using he2, ?_⟩
      · intro j hj
        simpa using hs3 j hj
      · intro j hj hjn
        simpa using he3 j hj hjn
    · exact absurd hsel (by simp)

/-- Witness for C2 (amended) at `cut_dut = [0, 1, 2, 3, 4, 5, 0]`,
`cut_ref = [0, 4, 8, 12, 16, 20, 0]`, `fraction = 0.1`: the window is
`(1, 5)` and the fit runs over the half-open slice of length `4`. -/
theorem c2_witness :
    selectWindow [0, 4, 8, 12, 16, 20, 0] (1 / 10) = .ok (1, 5) ∧
    ((1 < List.length ([0, 4, 8, 12, 16, 20, 0] : List ℚ) ∧
      1 / 10 * (npMax [0, 4, 8, 12, 16, 20, 0] - npMin [0, 4, 8, 12, 16, 20, 0])
          + npMin [0, 4, 8, 12, 16, 20, 0] < ([0, 4, 8, 12, 16, 20, 0] : List ℚ).getD 1 0 ∧
      (∀ j < 1,
        ¬(1 / 10 * (npMax [0, 4, 8, 12, 16, 20, 0] - npMin [0, 4, 8, 12, 16, 20, 0])
          + npMin [0, 4, 8, 12, 16, 20, 0] < ([0, 4, 8, 12, 16, 20, 0] : List ℚ).getD j 0)) ∧
      5 < List.length ([0, 4, 8, 12, 16, 20, 0] : List ℚ) ∧
      1 / 10 * (npMax [0, 4, 8, 12, 16, 20, 0] - npMin [0, 4, 8, 12, 16, 20, 0])
          + npMin [0, 4, 8, 12, 16, 20, 0] < ([0, 4, 8, 12, 16, 20, 0] : List ℚ).getD 5 0 ∧
      (∀ j, 5 < j → j < List.length ([0, 4, 8, 12, 16, 20, 0] : List ℚ) →
        ¬(1 / 10 * (npMax [0, 4, 8, 12, 16, 20, 0] - npMin [0, 4, 8, 12, 16, 20, 0])
          + npMin [0, 4, 8, 12, 16, 20, 0] < ([0, 4, 8, 12, 16, 20, 0] : List ℚ).getD j 0))) ∧
     windowFit [0, 1, 2, 3, 4, 5, 0] [0, 4, 8, 12, 16, 20, 0] (1 / 10) =
       polyfitFull ((([0, 1, 2, 3, 4, 5, 0] : List ℚ).drop 1).take (5 - 1))
         ((([0, 4, 8, 12, 16, 20, 0] : List ℚ).drop 1).take (5 - 1))) := by
  have hsel : selectWindow [0, 4, 8, 12, 16, 20, 0] (1 / 10) = .ok (1, 5) := by
    norm_num [selectWindow, npMax, npMin, List.range_succ, List.filter_append, List.filter]
  exact ⟨hsel, c2_theorem [0, 1, 2, 3, 4, 5, 0] [0, 4, 8, 12, 16, 20, 0] (1 / 10) 1 5 hsel⟩

/-- Claim C7: when no index of the (nonempty) aligned REF sequence exceeds
`min + fraction * (max - min)` — e.g. a flat all-zero REF, where
`delta = 0` — the window selection fails with the empty-window error and
the fit stage returns no partial result, regardless of the DUT content. -/
theorem c7_theorem (cut_dut cut_ref : List ℚ) (fraction : ℚ) (hne : cut_ref ≠ [])
    (hbelow : ∀ i < cut_ref.length,
      cut_ref.getD i 0 ≤ fraction * (npMax cut_ref - npMin cut_ref) + npMin cut_ref) :
    selectWindow cut_ref fraction = .error .emptyWindow ∧
    windowFit cut_dut cut_ref fraction = .error .emptyWindow := by
  have hfil : ((List.range cut_ref.length).filter fun i =>
      decide (fraction * (npMax cut_ref - npMin cut_ref) + npMin cut_ref
        < cut_ref.getD i 0)) = [] := by
    rw [List.filter_eq_nil_iff]
    intro a ha
    rw [List.mem_range] at ha
    simp only [decide_eq_true_eq]
    exact not_lt.mpr (hbelow a ha)
  have hsel : selectWindow cut_ref fraction = .error .emptyWindow := by
    simp only [selectWindow]
    rw [if_neg (by simp [hne]), hfil]
    rfl
  refine ⟨hsel, ?_⟩
  unfold windowFit
  rw [hsel]

/-- Witness for C7 at the flat REF `[0, 0, 0]` with DUT `[1, 2, 3]`. -/
theorem c7_witness :
    ([0, 0, 0] : List ℚ) ≠ [] ∧
    (∀ i < List.length ([0, 0, 0] : List ℚ),
      ([0, 0, 0] : List ℚ).getD i 0
        ≤ 1 / 10 * (npMax [0, 0, 0] - npMin [0, 0, 0]) + npMin [0, 0, 0]) ∧
    (selectWindow [0, 0, 0] (1 / 10) = .error .emptyWindow ∧
      windowFit [1, 2, 3] [0, 0, 0] (1 / 10) = .error .emptyWindow) := by
  have hbelow : ∀ i < List.length ([0, 0, 0] : List ℚ),
      ([0, 0, 0] : List ℚ).getD i 0
        ≤ 1 / 10 * (npMax [0, 0, 0] - npMin [0, 0, 0]) + npMin [0, 0, 0] := by
    intro i hi
    have hi3 : i < 3 := by simpa using hi
    interval_cases i <;> norm_num [npMax, npMin]
  exact ⟨by simp, hbelow, c7_theorem [1, 2, 3] [0, 0, 0] (1 / 10) (by simp) hbelow⟩

/-- Claim C10: for a nonempty aligned REF with `max > min` and any
`fraction < 1`, the set of indices exceeding the threshold is non-empty
(the index attaining the maximum satisfies the predicate), so the
first/last-index extraction cannot fail: window selection succeeds. -/
theorem c10_theorem (cut_ref : List ℚ) (fraction : ℚ) (hne : cut_ref ≠ [])
    (hdelta : npMin cut_ref < npMax cut_ref) (hfrac : fraction < 1) :
    ((List.range cut_ref.length).filter fun i =>
      decide (fraction * (npMax cut_ref - npMin cut_ref) + npMin cut_ref
        < cut_ref.getD i 0)) ≠ [] ∧
    ∃ s e, selectWindow cut_ref fraction = .ok (s, e) := by
  obtain ⟨k, hk, hkv⟩ : ∃ k, ∃ h : k < cut_ref.length, cut_ref[k] = npMax cut_ref := by
    have hmem := npMax_mem cut_ref hne
    rw [List.mem_iff_getElem] at hmem
    obtain ⟨n, hn, hv⟩ := hmem
    exact ⟨n, hn, hv⟩
  have hgetd : cut_ref.getD k 0 = npMax cut_ref := by
    rw [List.getD_eq_getElem?_getD, List.getElem?_eq_getElem hk]
    simpa using hkv
  have hpred : fraction * (npMax cut_ref - npMin cut_ref) + npMin cut_ref
      < cut_ref.getD k 0 := by
    rw [hgetd]
    have hd : 0 < npMax cut_ref - npMin cut_ref := by linarith
    have := mul_lt_mul_of_pos_right hfrac hd
    linarith
  have hkmem : k ∈ (List.range cut_ref.length).filter fun i =>
      decide (fraction * (npMax cut_ref - npMin cut_ref) + npMin cut_ref
        < cut_ref.getD i 0) := by
    rw [List.mem_filter]
    exact ⟨List.mem_range.mpr hk, by simpa using hpred⟩
  have hfil : ((List.range cut_ref.length).filter fun i =>
      decide (fraction * (npMax cut_ref - npMin cut_ref) + npMin cut_ref
        < cut_ref.getD i 0)) ≠ [] := by
    intro h0
    rw [h0] at hkmem
    simp at hkmem
  refine ⟨hfil, ?_⟩
  obtain ⟨s, hs⟩ : ∃ s, ((List.range cut_ref.length).filter fun i =>
      decide (fraction * (npMax cut_ref - npMin cut_ref) + npMin cut_ref
        < cut_ref.getD i 0)).head? = some s := by
    cases hfl : ((List.range cut_ref.length).filter fun i =>
        decide (fraction * (npMax cut_ref - npMin cut_ref) + npMin cut_ref
          < cut_ref.getD i 0)) with
    | nil => exact absurd hfl hfil
    | cons a t => exact ⟨a, rfl⟩
  obtain ⟨e, he⟩ : ∃ e, ((List.range cut_ref.length).filter fun i =>
      decide (fraction * (npMax cut_ref - npMin cut_ref) + npMin cut_ref
        < cut_ref.getD i 0)).getLast? = some e := by
    cases hfl : ((List.range cut_ref.length).filter fun i =>
        decide (fraction * (npMax cut_ref - npMin cut_ref) + npMin cut_ref
          < cut_ref.getD i 0)) with
    | nil => exact absurd hfl hfil
    | cons a t =>
      exact ⟨(a :: t).getLast (by simp), List.getLast?_eq_getLast _ _⟩
  refine ⟨s, e, ?_⟩
  simp only [selectWindow]
  rw [if_neg (by simp [hne]), hs, he]

/-- Witness for C10 at the ramp `[0, 1]` with `fraction = 0.1`. -/
theorem c10_witness :
    ([0, 1] : List ℚ) ≠ [] ∧ npMin [0, 1] < npMax [0, 1] ∧ (1 / 10 : ℚ) < 1 ∧
    (((List.range (List.length ([0, 1] : List ℚ))).filter fun i =>
      decide (1 / 10 * (npMax [0, 1] - npMin [0, 1]) + npMin [0, 1]
        < ([0, 1] : List ℚ).getD i 0)) ≠ [] ∧
    ∃ s e, selectWindow [0, 1] (1 / 10) = .ok (s, e)) :=
  ⟨by simp, by norm_num [npMin, npMax], by norm_num,
    c10_theorem [0, 1] (1 / 10) (by simp) (by norm_num [npMin, npMax]) (by norm_num)⟩

/-! ### Least-squares algebra for C5 -/

lemma zipWith_eq_map_zip (f : ℚ → ℚ → ℚ) : ∀ (x y : List ℚ),
    List.zipWith f x y = (x.zip y).map fun p => f p.1 p.2
  | [], _ => by simp
  | _ :: _, [] => by simp
  | a :: x, b :: y => by simp [zipWith_eq_map_zip f x y]

lemma sum_map_sq_err (pts : List (ℚ × ℚ)) (a c : ℚ) :
    (pts.map fun p => (p.2 - (c * p.1 + a)) ^ 2).sum
      = (pts.map fun p => p.2 * p.2).sum - 2 * a * (pts.map Prod.snd).sum
        - 2 * c * (pts.map fun p => p.1 * p.2).sum + (pts.length : ℚ) * (a * a)
        + 2 * (a * c) * (pts.map Prod.fst).sum
        + (c * c) * (pts.map fun p => p.1 * p.1).sum := by
  induction pts with
  | nil => simp
  | cons p t ih =>
    simp only [List.map_cons, List.sum_cons, List.length_cons, ih]
    push_cast
    ring

lemma sum_map_sq_dev (x : List ℚ) (c : ℚ) :
    (x.map fun v => (v - c) * (v - c)).sum
      = (x.map fun v => v * v).sum - 2 * c * x.sum + (x.length : ℚ) * (c * c) := by
  induction x with
  | nil => simp
  | cons a t ih =>
    simp only [List.map_cons, List.sum_cons, List.length_cons, ih]
    push_cast
    ring

lemma sum_pos_of_mem : ∀ (l : List ℚ), (∀ v ∈ l, 0 ≤ v) → ∀ w ∈ l, 0 < w → 0 < l.sum
  | [], _, w, hw, _ => absurd hw (List.not_mem_nil w)
  | a :: t, hnn, w, hw, hwp => by
    rw [List.sum_cons]
    rcases List.mem_cons.mp hw with rfl | hmem
    · have ht : 0 ≤ t.sum := List.sum_nonneg fun v hv => hnn v (List.mem_cons_of_mem _ hv)
      linarith
    · have ha : 0 ≤ a := hnn a (List.mem_cons_self a t)
      have ht := sum_pos_of_mem t (fun v hv => hnn v (List.mem_cons_of_mem _ hv)) w hmem hwp
      linarith

lemma allSameB_false_exists {x : List ℚ} (h : allSameB x = false) :
    ∃ a t, x = a :: t ∧ ∃ u ∈ t, u ≠ a := by
  cases x with
  | nil => simp [allSameB] at h
  | cons a t =>
    refine ⟨a, t, rfl, ?_⟩
    simp only [allSameB] at h
    obtain ⟨u, hu, hne⟩ := List.all_eq_false.mp h
    exact ⟨u, hu, by simpa using hne⟩

lemma dd_pos (x : List ℚ) (hlen : 1 ≤ x.length) (hns : allSameB x = false) :
    0 < (x.length : ℚ) * (x.map fun v => v * v).sum - x.sum * x.sum := by
  have hn : (0 : ℚ) < (x.length : ℚ) := by exact_mod_cast hlen
  have hkey : (x.map fun v =>
        (v - x.sum / (x.length : ℚ)) * (v - x.sum / (x.length : ℚ))).sum
      = (x.map fun v => v * v).sum - x.sum * x.sum / (x.length : ℚ) := by
    rw [sum_map_sq_dev]
    field_simp
    ring
  have hexists : ∃ w ∈ x, w ≠ x.sum / (x.length : ℚ) := by
    obtain ⟨a, t, rfl, u, hu, hune⟩ := allSameB_false_exists hns
    by_cases hac : a = (a :: t).sum / (((a :: t).length : ℕ) : ℚ)
    · refine ⟨u, List.mem_cons_of_mem a hu, ?_⟩
      rw [← hac]
      exact hune
    · exact ⟨a, List.mem_cons_self a t, hac⟩
  obtain ⟨w, hwmem, hwne⟩ := hexists
  have hsum : 0 < (x.map fun v =>
      (v - x.sum / (x.length : ℚ)) * (v - x.sum / (x.length : ℚ))).sum := by
    refine sum_pos_of_mem _ ?_
      ((w - x.sum / (x.length : ℚ)) * (w - x.sum / (x.length : ℚ)))
      (List.mem_map_of_mem _ hwmem) (mul_self_pos.mpr (sub_ne_zero.mpr hwne))
    intro v hv
    rw [List.mem_map] at hv
    obtain ⟨u2, _, rfl⟩ := hv
    exact mul_self_nonneg _
  rw [hkey] at hsum
  have h2 : 0 < (x.length : ℚ)
      * ((x.map fun v => v * v).sum - x.sum * x.sum / (x.length : ℚ)) :=
    mul_pos hn hsum
  have h3 : (x.length : ℚ) * ((x.map fun v => v * v).sum - x.sum * x.sum / (x.length : ℚ))
      = (x.length : ℚ) * (x.map fun v => v * v).sum - x.sum * x.sum := by
    field_simp
    ring
  linarith

lemma quad_nonneg (nn sx sxx u v : ℚ) (hn : 0 < nn) (hD : 0 ≤ nn * sxx - sx * sx) :
    0 ≤ nn * (u * u) + 2 * (u * v) * sx + (v * v) * sxx := by
  nlinarith [sq_nonneg (nn * u + v * sx), mul_nonneg (mul_self_nonneg v) hD]

lemma ols_min_of_normal (nn sx sy sxx sxy syy c0 c1 a c : ℚ) (hn : 0 < nn)
    (hD : 0 ≤ nn * sxx - sx * sx)
    (h1 : nn * c0 + c1 * sx = sy) (h2 : c0 * sx + c1 * sxx = sxy) :
    syy - 2 * c0 * sy - 2 * c1 * sxy + nn * (c0 * c0) + 2 * (c0 * c1) * sx
        + (c1 * c1) * sxx
      ≤ syy - 2 * a * sy - 2 * c * sxy + nn * (a * a) + 2 * (a * c) * sx
        + (c * c) * sxx := by
  have hq := quad_nonneg nn sx sxx (a - c0) (c - c1) hn hD
  have hdiff : (syy - 2 * a * sy - 2 * c * sxy + nn * (a * a) + 2 * (a * c) * sx
        + (c * c) * sxx)
      - (syy - 2 * c0 * sy - 2 * c1 * sxy + nn * (c0 * c0) + 2 * (c0 * c1) * sx
        + (c1 * c1) * sxx)
      = nn * ((a - c0) * (a - c0)) + 2 * ((a - c0) * (c - c1)) * sx
        + ((c - c1) * (c - c1)) * sxx := by
    rw [← h1, ← h2]
    ring
  linarith

lemma sum_map_aff (x : List ℚ) :
    (x.map fun v => 2 * v + 3).sum = 2 * x.sum + 3 * (x.length : ℚ) := by
  induction x with
  | nil => simp
  | cons a t ih =>
    simp only [List.map_cons, List.sum_cons, List.length_cons, ih]
    push_cast
    ring

lemma sum_map_mul_aff (x : List ℚ) :
    (x.map fun v => v * (2 * v + 3)).sum = 2 * (x.map fun v => v * v).sum + 3 * x.sum := by
  induction x with
  | nil => simp
  | cons a t ih =>
    simp only [List.map_cons, List.sum_cons, ih]
    ring

lemma zipWith_self_map (g : ℚ → ℚ → ℚ) (f : ℚ → ℚ) : ∀ x : List ℚ,
    List.zipWith g x (x.map f) = x.map fun v => g v (f v)
  | [] => by simp
  | a :: t => by simp [zipWith_self_map g f t]

lemma sum_map_zero (l : List ℚ) : (l.map fun _ => (0 : ℚ)).sum = 0 := by
  induction l with
  | nil => simp
  | cons a t ih => simp [ih]

/-- Counterexample to claim C5 as stated: with exactly two samples —
`x = [0, 1]`, `y = [3, 5]`, so `y = 2x + 3` holds pointwise — the fitter
does not return slope `2`, intercept `3`, residual `0`: the two-point
degree-1 system is square, `lstsq` returns an empty residual array, and
`resid[0]` raises, so the fit fails. -/
theorem c5_counterexample :
    ([0, 1] : List ℚ).length = ([3, 5] : List ℚ).length ∧
    2 ≤ ([0, 1] : List ℚ).length ∧
    ([3, 5] : List ℚ) = ([0, 1] : List ℚ).map (fun v => 2 * v + 3) ∧
    polyfitFull [0, 1] [3, 5] = .error .insufficientData :=
  ⟨by simp, by simp, by norm_num, rfl⟩

/-- Claim C5 (amended): whenever a degree-1 fit succeeds (which requires at
least 3 samples and at least two distinct abscissas; with exactly 2 samples
the residual is undefined and the fit fails), it returns the ordinary
least-squares slope and intercept minimizing the sum of squared errors and
returns that minimized sum as the residual; in particular if
`y = 2x + 3` exactly, the slope is `2`, the intercept `3`, and the residual
`0`, exactly. -/
theorem c5_theorem (x y : List ℚ) (f : FitFull) (hok : polyfitFull x y = .ok f) :
    f.resid = sse x y f.c0 f.c1 ∧
    (∀ a c : ℚ, f.resid ≤ sse x y a c) ∧
    (y = x.map (fun v => 2 * v + 3) → f.c1 = 2 ∧ f.c0 = 3 ∧ f.resid = 0) := by
  simp only [polyfitFull] at hok
  split at hok
  · exact absurd hok (by simp)
  · split at hok
    · exact absurd hok (by simp)
    · split at hok
      · exact absurd hok (by simp)
      · rename_i hneq hlen hsame
        rw [Except.ok.injEq] at hok
        have hc0 : f.c0 = (y.sum
            - ((x.length : ℚ) * (List.zipWith (fun u v => u * v) x y).sum
                - x.sum * y.sum)
              / ((x.length : ℚ) * (x.map fun v => v * v).sum - x.sum * x.sum) * x.sum)
            / (x.length : ℚ) := by
          rw [← hok]
        have hc1 : f.c1 = ((x.length : ℚ) * (List.zipWith (fun u v => u * v) x y).sum
              - x.sum * y.sum)
            / ((x.length : ℚ) * (x.map fun v => v * v).sum - x.sum * x.sum) := by
          rw [← hok]
        have hre : f.resid = sse x y
            ((y.sum - ((x.length : ℚ) * (List.zipWith (fun u v => u * v) x y).sum
                - x.sum * y.sum)
              / ((x.length : ℚ) * (x.map fun v => v * v).sum - x.sum * x.sum) * x.sum)
              / (x.length : ℚ))
            (((x.length : ℚ) * (List.zipWith (fun u v => u * v) x y).sum - x.sum * y.sum)
              / ((x.length : ℚ) * (x.map fun v => v * v).sum - x.sum * x.sum)) := by
          rw [← hok]
        have hxy : x.length = y.length := by omega
        have hlen3 : 3 ≤ x.length := by omega
        have hn : (0 : ℚ) < (x.length : ℚ) := by
          exact_mod_cast (by omega : 0 < x.length)
        have hsame' : allSameB x = false := by
          cases h : allSameB x
          · rfl
          · exact absurd h hsame
        have hD := dd_pos x (by omega) hsame'
        have hfst : (x.zip y).map Prod.fst = x := List.map_fst_zip x y (le_of_eq hxy)
        have hsnd : (x.zip y).map Prod.snd = y := List.map_snd_zip x y (le_of_eq hxy.symm)
        have eSxx : ((x.zip y).map fun p => p.1 * p.1).sum = (x.map fun v => v * v).sum := by
          have hmm : ((x.zip y).map Prod.fst).map (fun v => v * v)
              = (x.zip y).map fun p => p.1 * p.1 := by
            rw [List.map_map]
            rfl
          rw [← hmm, hfst]
        have eN : (((x.zip y).length : ℕ) : ℚ) = (x.length : ℚ) := by
          rw [List.length_zip, hxy, min_self]
        have hexp : ∀ aa cc : ℚ, sse x y aa cc
            = ((x.zip y).map fun p => p.2 * p.2).sum - 2 * aa * y.sum
              - 2 * cc * (List.zipWith (fun u v => u * v) x y).sum
              + (x.length : ℚ) * (aa * aa) + 2 * (aa * cc) * x.sum
              + (cc * cc) * (x.map fun v => v * v).sum := by
          intro aa cc
          rw [sse, zipWith_eq_map_zip, sum_map_sq_err, hsnd, hfst, eSxx,
            ← zipWith_eq_map_zip (fun u v => u * v) x y, eN]
        have h1 : ∀ cc : ℚ,
            (x.length : ℚ) * ((y.sum - cc * x.sum) / (x.length : ℚ)) + cc * x.sum
              = y.sum := by
          intro cc
          field_simp
        have h2 : ((y.sum - ((x.length : ℚ) * (List.zipWith (fun u v => u * v) x y).sum
                - x.sum * y.sum)
              / ((x.length : ℚ) * (x.map fun v => v * v).sum - x.sum * x.sum) * x.sum)
              / (x.length : ℚ)) * x.sum
            + (((x.length : ℚ) * (List.zipWith (fun u v => u * v) x y).sum
                - x.sum * y.sum)
              / ((x.length : ℚ) * (x.map fun v => v * v).sum - x.sum * x.sum))
              * (x.map fun v => v * v).sum
            = (List.zipWith (fun u v => u * v) x y).sum := by
          field_simp
          ring
        refine ⟨by rw [hre, hc0, hc1], ?_, ?_⟩
        · intro a c
          rw [hre, hexp, hexp]
          exact ols_min_of_normal _ _ _ _ _ _ _ _ a c hn hD.le (h1 _) h2
        · intro hy
          subst hy
          have hSy : (x.map fun v => 2 * v + 3).sum = 2 * x.sum + 3 * (x.length : ℚ) :=
            sum_map_aff x
          have hSxy : (List.zipWith (fun u v => u * v) x (x.map fun v => 2 * v + 3)).sum
              = 2 * (x.map fun v => v * v).sum + 3 * x.sum := by
            rw [zipWith_self_map]
            exact sum_map_mul_aff x
          have hc1v : f.c1 = 2 := by
            rw [hc1, hSxy, hSy]
            rw [div_eq_iff (ne_of_gt hD)]
            ring
          have hc1v' : ((x.length : ℚ)
                * (List.zipWith (fun u v => u * v) x (x.map fun v => 2 * v + 3)).sum
                - x.sum * (x.map fun v => 2 * v + 3).sum)
              / ((x.length : ℚ) * (x.map fun v => v * v).sum - x.sum * x.sum) = 2 := by
            rw [← hc1]
            exact hc1v
          have hc0v : f.c0 = 3 := by
            rw [hc0, hc1v', hSy]
            rw [div_eq_iff (ne_of_gt hn)]
            ring
          refine ⟨hc1v, hc0v, ?_⟩
          rw [hre, hc1v', hSy]
          have hz : (2 * x.sum + 3 * (x.length : ℚ) - 2 * x.sum) / (x.length : ℚ) = 3 := by
            rw [div_eq_iff (ne_of_gt hn)]
            ring
          rw [hz, sse, zipWith_self_map]
          have hfz : (fun v => ((2 * v + 3 : ℚ) - (2 * v + 3)) ^ 2) = fun _ => (0 : ℚ) := by
            funext u
            ring
          rw [hfz, sum_map_zero]

/-- Witness for C5 (amended) at `x = [0, 1, 2]`, `y = [3, 5, 7]`: the fit
succeeds with intercept `3`, slope `2`, residual `0`. -/
theorem c5_witness :
    polyfitFull [0, 1, 2] [3, 5, 7] = .ok ⟨3, 2, 0⟩ ∧
    ((⟨3, 2, 0⟩ : FitFull).resid
        = sse [0, 1, 2] [3, 5, 7] (⟨3, 2, 0⟩ : FitFull).c0 (⟨3, 2, 0⟩ : FitFull).c1 ∧
      (∀ a c : ℚ, (⟨3, 2, 0⟩ : FitFull).resid ≤ sse [0, 1, 2] [3, 5, 7] a c) ∧
      (([3, 5, 7] : List ℚ) = ([0, 1, 2] : List ℚ).map (fun v => 2 * v + 3) →
        (⟨3, 2, 0⟩ : FitFull).c1 = 2 ∧ (⟨3, 2, 0⟩ : FitFull).c0 = 3 ∧
          (⟨3, 2, 0⟩ : FitFull).resid = 0)) := by
  have hok : polyfitFull [0, 1, 2] [3, 5, 7] = .ok ⟨3, 2, 0⟩ := by
    norm_num [polyfitFull, allSameB, sse, List.all_cons, List.zipWith]
  exact ⟨hok, c5_theorem [0, 1, 2] [3, 5, 7] ⟨3, 2, 0⟩ hok⟩

/-- Claim C6: the scale resolver multiplies the fitted slope by the known
REF scale and passes the fit residual through unchanged: the pipeline
output is `(fit.c1 * scale_ref, fit.resid)` whenever the fit succeeds, and
in particular a slope of `1.5` with `scale_ref = 100000` resolves to
`scale_dut = 150000`. -/
theorem c6_theorem :
    (∀ values_ref values_dut : List ℚ, ∀ scale_ref : ℚ, 0 < scale_ref →
      parse_calibration_curve values_ref values_dut scale_ref =
        match pipelineFit values_ref values_dut with
        | .error e => .error e
        | .ok f => .ok (f.c1 * scale_ref, f.resid)) ∧
    resolveScale ⟨5, 3 / 2, 7⟩ 100000 = (150000, 7) := by
  constructor
  · intro vr vd s _hs
    unfold parse_calibration_curve
    cases hpf : pipelineFit vr vd <;> simp [resolveScale]
  · norm_num [resolveScale]

/-- Witness for C6 at `scale_ref = 1 > 0` (and the concrete resolver
instance with slope `3/2` and `scale_ref = 100000`). -/
theorem c6_witness :
    (0 : ℚ) < 1 ∧
    parse_calibration_curve [] [] 1 =
      (match pipelineFit [] [] with
        | .error e => .error e
        | .ok f => .ok (f.c1 * 1, f.resid)) ∧
    resolveScale ⟨5, 3 / 2, 7⟩ 100000 = (150000, 7) :=
  ⟨by norm_num, c6_theorem.1 [] [] 1 (by norm_num), c6_theorem.2⟩

end LoadcellCal
